import Mathlib

/-!
Verification of the object-synchronization and orchestration core of
`src/appengine.py` (COVID-19 Open Data pipeline app-engine service).

The Python source is shallowly embedded: blob stores are association lists
from keys to byte lists, local folder trees are lists of
(relative path, bytes) pairs, per-attempt transfer failures are supplied by
an oracle `fail : key → attempt → Bool`, and the opaque pipeline
collaborator (`DataPipeline`) is a record of functions passed as a
parameter.  Python string operations used by the source
(`str.split(sep)[-1]`, `str.split(sep, 2)[-1]`, `str.split(".")[0]`,
`os.path.join`, truthiness of `or`) are embedded as executable functions on
`List Char` / `String`.
-/

namespace Appengine

/-- Blob contents / file contents: a sequence of bytes. -/
abbrev Data := List Nat

/-- A single-bucket remote object store: association list key ↦ bytes. -/
abbrev Store := List (String × Data)

/-- A local directory tree: list of (path relative to the root, bytes). -/
abbrev Tree := List (String × Data)

/-! ### Python string helpers -/

/-- Embedding of Python `s.split(sep)` for a one-character separator:
splits `s` at every occurrence of `sep`; always returns a nonempty list. -/
def pySplitChar (sep : Char) : List Char → List (List Char)
  | [] => [[]]
  | c :: cs =>
    match pySplitChar sep cs with
    | [] => [[]]
    | r :: rs => if c = sep then [] :: r :: rs else (c :: r) :: rs

/-- Embedding of Python `s.split("/")[-1]`: the filename component of a
path (everything after the last slash). -/
def lastComponent (s : String) : String :=
  String.mk ((pySplitChar '/' s.data).getLastD [])

/-- Embedding of Python `s.split(".")[0]`: everything before the first dot
(the whole string when there is no dot). -/
def beforeFirstDot (s : String) : String :=
  String.mk ((pySplitChar '.' s.data).headD [])

/-- The suffix of `l` that follows the first occurrence of `sep` in `l`,
or `none` when `sep` does not occur (scanning left to right). -/
def dropAfterFirstOcc (sep : List Char) : List Char → Option (List Char)
  | [] => none
  | c :: cs =>
    if sep.isPrefixOf (c :: cs) then some ((c :: cs).drop sep.length)
    else dropAfterFirstOcc sep cs

/-- Whether `sep` occurs as a contiguous run inside `l`. -/
def occursInB (sep : List Char) : List Char → Bool
  | [] => false
  | c :: cs => sep.isPrefixOf (c :: cs) || occursInB sep cs

/-- Embedding of Python `s.split(sep, k)[-1]`: the remainder of `s` after
greedily removing the first (at most) `k` occurrences of `sep`. -/
def splitTailAux (sep : List Char) : Nat → List Char → List Char
  | 0, s => s
  | k + 1, s =>
    match dropAfterFirstOcc sep s with
    | none => s
    | some rest => splitTailAux sep k rest

/-- Embedding of `blob.name.split(f"<remote_path>/", 2)[-1]` from
`_download_blob`: the relative path of a blob under `remotePath`. -/
def relPathOf (remotePath key : String) : String :=
  String.mk (splitTailAux (remotePath ++ "/").data 2 key.data)

/-- Embedding of `os.path.join(a, b)` (POSIX) for the cases arising here. -/
def joinPath (a b : String) : String :=
  if b.data.head? = some '/' then b
  else if a = "" then b
  else if a.data.getLast? = some '/' then a ++ b
  else a ++ "/" ++ b

/-- `p` is a string prefix of `s` (the object-store listing predicate of
`bucket.list_blobs(prefix=...)`). -/
def strPrefix (p s : String) : Bool := p.data.isPrefixOf s.data

/-- Whether a filename contains a dot. -/
def hasDot (s : String) : Bool := s.data.any (· = '.')

/-- Embedding of the glob pattern `**/*.*` used by `upload_folder`: a
relative path matches exactly when its filename component contains a dot. -/
def globMatches (relPath : String) : Bool := hasDot (lastComponent relPath)

/-- The files of a tree enumerated by `local_folder.glob("**/*.*")`. -/
def globFiles (tree : Tree) : Tree := tree.filter (fun f => globMatches f.1)

/-! ### Bounded retry -/

/-- `BLOB_OP_MAX_RETRIES = 3` from the source. -/
def BLOB_OP_MAX_RETRIES : Nat := 3

/-- The first attempt index in `range n` at which the operation succeeds,
mirroring `for _ in range(n): try: return op() except: log`. -/
def firstSuccess (fail : Nat → Bool) (n : Nat) : Option Nat :=
  (List.range n).find? (fun i => !fail i)

/-- How many attempts the retry loop executes: up to and including the
first success, or all `n` on exhaustion. -/
def attemptsMade (fail : Nat → Bool) (n : Nat) : Nat :=
  match firstSuccess fail n with
  | some i => i + 1
  | none => n

/-- Whether some attempt within the budget succeeds.  The `except` clause
of the source catches every exception, so exhaustion never propagates. -/
def transferOk (fail : Nat → Bool) (n : Nat) : Bool :=
  (firstSuccess fail n).isSome

/-! ### The remote store -/

/-- `blob.upload_from_*`: last-writer-wins write of a key. -/
def putBlob (store : Store) (k : String) (d : Data) : Store :=
  if store.any (fun kv => kv.1 = k) then
    store.map (fun kv => if kv.1 = k then (k, d) else kv)
  else store ++ [(k, d)]

/-- `bucket.list_blobs(prefix=remotePath)`: every stored blob whose key
has `remotePath` as a string prefix. -/
def listBlobs (store : Store) (remotePath : String) : Store :=
  store.filter (fun kv => strPrefix remotePath kv.1)

/-- The set of keys present in a store. -/
def storeKeys (store : Store) : List String := store.map (fun kv => kv.1)

/-! ### FolderSync: `download_folder` and `upload_folder`

`thread_map` distributes items over a worker pool and the enclosing call
waits for all of them; it is embedded as a map over the enumeration, with
order-sensitive conclusions avoided in the theorems.  The per-item retry
loops are embedded by `transferOk` with a per-key failure oracle. -/

/-- Embedding of `download_folder(bucket_name, remote_path, local_folder)`:
lists blobs under `remotePath` and writes each one whose retried download
succeeds to its relative path (`_download_blob`).  Exhausted retries are
logged and leave no file; the function itself always returns. -/
def download_folder (fail : String → Nat → Bool) (store : Store)
    (remotePath : String) : Tree :=
  (listBlobs store remotePath).filterMap (fun kv =>
    if transferOk (fail kv.1) BLOB_OP_MAX_RETRIES then
      some (relPathOf remotePath kv.1, kv.2)
    else none)

/-- The remote key targeted by `_upload_file` for a local file. -/
def uploadKey (remotePath relPath : String) : String := joinPath remotePath relPath

/-- The loop body `_upload_file`: retry the upload of one file; on success
write its blob, on exhaustion log and leave the store unchanged. -/
def uploadStep (fail : String → Nat → Bool) (remotePath : String)
    (st : Store) (f : String × Data) : Store :=
  if transferOk (fail (uploadKey remotePath f.1)) BLOB_OP_MAX_RETRIES then
    putBlob st (uploadKey remotePath f.1) f.2
  else st

/-- Embedding of `upload_folder(bucket_name, remote_path, local_folder)`:
enumerates `local_folder.glob("**/*.*")` and uploads each file whose
retried upload succeeds to `os.path.join(remote_path, relative_path)`.
Exhausted retries are logged and write nothing. -/
def upload_folder (fail : String → Nat → Bool) (store : Store)
    (remotePath : String) (tree : Tree) : Store :=
  (globFiles tree).foldl (uploadStep fail remotePath) store

/-! ### String ordering (Python `sorted` on strings)

Python compares strings lexicographically by code point; `lexLe` is that
comparison and `sortStrings` embeds `sorted(snapshot_list)` as a stable
insertion sort with respect to it. -/

/-- Code-point lexicographic order on character lists. -/
def lexLe : List Char → List Char → Bool
  | [], _ => true
  | _ :: _, [] => false
  | a :: as, b :: bs => if a < b then true else if b < a then false else lexLe as bs

/-- Python string comparison `a <= b`. -/
def pyStrLe (a b : String) : Bool := lexLe a.data b.data

/-- Embedding of `sorted(l)` on lists of strings. -/
def sortStrings (l : List String) : List String :=
  l.insertionSort (fun a b => pyStrLe a b = true)

/-! ### `cache_build_map` -/

/-- Embedding of the pair of statements
`sitemap[k] = sitemap.get(k, []); sitemap[k].append(v)` on the
insertion-ordered dictionary model. -/
def bucketAppend (m : List (String × List String)) (k v : String) :
    List (String × List String) :=
  if m.any (fun kv => kv.1 = k) then
    m.map (fun kv => if kv.1 = k then (kv.1, kv.2 ++ [v]) else kv)
  else m ++ [(k, [v])]

/-- Dictionary lookup with default `[]` (`sitemap.get(k, [])`). -/
def getBucket : List (String × List String) → String → List String
  | [], _ => []
  | kv :: m, k => if kv.1 = k then kv.2 else getBucket m k

/-- Whether a full key occurs in some bucket of the manifest. -/
def manifestHas (m : List (String × List String)) (v : String) : Bool :=
  m.any (fun kv => decide (v ∈ kv.2))

/-- One iteration of the `cache_build_map` listing loop: skip the blob if
its filename is `sitemap.json`, otherwise append its full key to the
bucket of the filename part before the first dot. -/
def cacheStep (m : List (String × List String)) (name : String) :
    List (String × List String) :=
  if lastComponent name = "sitemap.json" then m
  else bucketAppend m (beforeFirstDot (lastComponent name)) name

/-- Embedding of `cache_build_map()`, parameterized by the names returned
by `bucket.list_blobs(prefix="cache")`: skips blobs whose filename is
`sitemap.json`, groups the rest by the filename part before the first dot,
then sorts every bucket. -/
def cache_build_map (blobs : List String) : List (String × List String) :=
  (blobs.foldl cacheStep []).map (fun kv => (kv.1, sortStrings kv.2))

/-! ### `cache_pull` -/

/-- Embedding of `cache_pull()`.  `fetch` is the network download from
`lib.net` (outside `src/`): `fetch url = none` models `download` raising,
which the bare `except` catches and logs, skipping that source.  `ts` is
`now.strftime("%Y-%m-%d-%H")`, `dumps` is the opaque `json.dumps`
serializer, and `config` is the external `{url, output}` descriptor list.
Returns (final store, locally written files, sitemap, HTTP response). -/
def cache_pull (fail : String → Nat → Bool) (fetch : String → Option Data)
    (config : List (String × String)) (ts : String)
    (dumps : List (String × List String) → Data) (store : Store) :
    Store × Tree × List (String × List String) × String :=
  let localFiles : Tree :=
    config.filterMap (fun s => (fetch s.1).map (fun d => (ts ++ "/" ++ s.2, d)))
  let store1 := upload_folder fail store "cache" localFiles
  let sitemap := cache_build_map (storeKeys (listBlobs store1 "cache"))
  let store2 := putBlob store1 "cache/sitemap.json" (dumps sitemap)
  (store2, localFiles, sitemap, "OK")

/-! ### Stage orchestration: `update_table` and `combine_table` -/

/-- Python truthiness of an optional string (`None` and `""` are falsy). -/
def pyTruthyStr : Option String → Bool
  | none => false
  | some s => s ≠ ""

/-- Embedding of `a or b` for optional strings. -/
def pyOrStr (a b : Option String) : Option String :=
  if pyTruthyStr a then a else b

/-- Python truthiness of an optional integer (`None` and `0` are falsy). -/
def pyTruthyInt : Option Int → Bool
  | none => false
  | some i => i ≠ 0

/-- Embedding of `idx or safe_int_cast(request.args.get("idx"))`. -/
def pyOrInt (a b : Option Int) : Option Int :=
  if pyTruthyInt a then a else b

/-- Python list indexing `l[i]` with negative-index wrapping; `none`
models an `IndexError`. -/
def pyIndex (l : List String) (i : Int) : Option String :=
  let j : Int := if i < 0 then (l.length : Int) + i else i
  if 0 ≤ j then l[j.toNat]? else none

/-- Embedding of `table_name.replace("-", "_")` (single-character
pattern, so a character map). -/
def dashToUnderscore (s : String) : String :=
  String.mk (s.data.map (fun c => if c = '-' then '_' else c))

/-- Modelled from the spec: the test/prod bucket-name constants come from
`lib.constants`, which is outside `src/`; their values are opaque. -/
def GCS_BUCKET_TEST : String := "bucket-test"

/-- Modelled from the spec: production bucket-name constant, opaque. -/
def GCS_BUCKET_PROD : String := "bucket-prod"

/-- Modelled from the spec: the opaque external pipeline collaborator
(`DataPipeline`, outside `src/`), exposing its data-source list, `parse`
(returning the snapshot and intermediate trees it writes), and `combine`. -/
structure PipelineModel where
  sources : List String
  parse : List String → Tree × Tree
  combine : Tree → Data

/-- Observable actions of a stage, in program order. -/
inductive Event where
  | workspaceAlloc (dir : String)
  | makeDir (dir : String)
  | pipelineLoad (name : String)
  | parseRun (sources : List String)
  | saveIntermediate (dir : String)
  | combineRun
  | exportCsv (path : String)
  | storeUpload (bucket : String) (remotePath : String) (localDir : String)
  | storeDownload (bucket : String) (remotePath : String) (localDir : String)
  deriving DecidableEq

/-- How a stage terminates: normal HTTP response, failed
`assert table_name in list(get_table_names())`, or an `IndexError` from
`data_pipeline.data_sources[idx]`. -/
inductive StageOutcome where
  | ok (response : String)
  | assertionError
  | indexError
  deriving DecidableEq

/-- Embedding of `update_table(table_name, idx)`.  `load` is
`DataPipeline.load`, `registry` is `list(get_table_names())`, `ws` the
fresh `TemporaryDirectory` path, `reqTable`/`reqIdx` the request query
parameters `table`/`safe_int_cast(idx)`.  Returns the event trace, the
final store, and the outcome; a failed assertion produces an empty trace
and leaves the store untouched. -/
def update_table (load : String → PipelineModel) (registry : List String)
    (ws : String) (fail : String → Nat → Bool) (store : Store)
    (tableArg : Option String) (idxArg : Option Int)
    (reqTable : Option String) (reqIdx : Option Int) :
    List Event × Store × StageOutcome :=
  match pyOrStr tableArg reqTable with
  | none => ([], store, StageOutcome.assertionError)
  | some t =>
    if t ∈ registry then
      let pname := dashToUnderscore t
      let p := load pname
      let ev0 := [Event.workspaceAlloc ws, Event.makeDir (ws ++ "/snapshot"),
        Event.makeDir (ws ++ "/intermediate"), Event.pipelineLoad pname]
      let run := fun (srcs : List String) =>
        let res := p.parse srcs
        let store1 := upload_folder fail store "snapshot" res.1
        let store2 := upload_folder fail store1 "intermediate" res.2
        (ev0 ++ [Event.parseRun srcs, Event.saveIntermediate (ws ++ "/intermediate"),
          Event.storeUpload GCS_BUCKET_TEST "snapshot" (ws ++ "/snapshot"),
          Event.storeUpload GCS_BUCKET_TEST "intermediate" (ws ++ "/intermediate")],
         store2, StageOutcome.ok "OK")
      match pyOrInt idxArg reqIdx with
      | none => run p.sources
      | some i =>
        match pyIndex p.sources i with
        | none => (ev0, store, StageOutcome.indexError)
        | some s => run [s]
    else ([], store, StageOutcome.assertionError)

/-- Embedding of `combine_table(table_name)`: asserts the table name,
downloads the `intermediate` tree, combines it, exports
`tables/<table_name>.csv` locally and uploads the `tables` tree. -/
def combine_table (load : String → PipelineModel) (registry : List String)
    (ws : String) (fail : String → Nat → Bool) (store : Store)
    (tableArg : Option String) (reqTable : Option String) :
    List Event × Store × StageOutcome :=
  match pyOrStr tableArg reqTable with
  | none => ([], store, StageOutcome.assertionError)
  | some t =>
    if t ∈ registry then
      let localInter := download_folder fail store "intermediate"
      let pname := dashToUnderscore t
      let p := load pname
      let combined := p.combine localInter
      let tablesTree : Tree := [(t ++ ".csv", combined)]
      let store1 := upload_folder fail store "tables" tablesTree
      ([Event.workspaceAlloc ws, Event.makeDir (ws ++ "/tables"),
        Event.storeDownload GCS_BUCKET_TEST "intermediate" (ws ++ "/intermediate"),
        Event.pipelineLoad pname, Event.combineRun,
        Event.exportCsv (ws ++ "/tables/" ++ t ++ ".csv"),
        Event.storeUpload GCS_BUCKET_TEST "tables" (ws ++ "/tables")],
       store1, StageOutcome.ok "OK")
    else ([], store, StageOutcome.assertionError)

/-- The remote prefixes written (uploaded to) during a stage's trace. -/
def prefixesWritten (evs : List Event) : List String :=
  evs.filterMap (fun e =>
    match e with
    | Event.storeUpload _ rp _ => some rp
    | _ => none)

/-- The local workspace paths a stage's trace touches. -/
def localPathsTouched (evs : List Event) : List String :=
  evs.filterMap (fun e =>
    match e with
    | Event.workspaceAlloc d => some d
    | Event.makeDir d => some d
    | Event.saveIntermediate d => some d
    | Event.exportCsv d => some d
    | Event.storeUpload _ _ d => some d
    | Event.storeDownload _ _ d => some d
    | _ => none)

/-! ### Basic lemmas about the embedding -/

theorem strMk_data (s : String) : String.mk s.data = s := rfl

theorem strPrefix_append (p s : String) : strPrefix p (p ++ s) = true := by
  simp [strPrefix, String.data_append, List.isPrefixOf_iff_prefix]

theorem strPrefix_refl (p : String) : strPrefix p p = true := by
  simp [strPrefix, List.isPrefixOf_iff_prefix]

theorem strAppend_left_cancel {a b c : String} (h : a ++ b = a ++ c) : b = c := by
  have hd := congrArg String.data h
  simp only [String.data_append] at hd
  cases b; cases c
  exact congrArg String.mk (List.append_cancel_left hd)

theorem firstSuccess_of_allFail {f : Nat → Bool} {n : Nat} (h : ∀ i, f i = true) :
    firstSuccess f n = none := by
  apply List.find?_eq_none.mpr
  intro i _
  simp [h i]

theorem attemptsMade_of_allFail {f : Nat → Bool} {n : Nat} (h : ∀ i, f i = true) :
    attemptsMade f n = n := by
  simp [attemptsMade, firstSuccess_of_allFail h]

theorem transferOk_of_allFail {f : Nat → Bool} {n : Nat} (h : ∀ i, f i = true) :
    transferOk f n = false := by
  simp [transferOk, firstSuccess_of_allFail h]

theorem transferOk_of_firstOk {f : Nat → Bool} (h : f 0 = false) :
    transferOk f BLOB_OP_MAX_RETRIES = true := by
  simp [transferOk, firstSuccess, BLOB_OP_MAX_RETRIES,
    show List.range 3 = [0, 1, 2] from rfl, List.find?, h]

theorem storeKeys_putBlob (st : Store) (k : String) (d : Data) :
    storeKeys (putBlob st k d) =
      if k ∈ storeKeys st then storeKeys st else storeKeys st ++ [k] := by
  by_cases h : st.any (fun kv => kv.1 = k)
  · have hk : k ∈ storeKeys st := by
      rcases List.any_eq_true.mp h with ⟨kv, hm, he⟩
      simp only [decide_eq_true_eq] at he
      exact he ▸ List.mem_map_of_mem _ hm
    simp only [putBlob, h, if_true, storeKeys, List.map_map]
    rw [if_pos (show k ∈ List.map (fun kv => kv.1) st from hk)]
    refine List.map_congr_left (fun kv _ => ?_)
    simp only [Function.comp]
    by_cases hkv : kv.1 = k <;> simp [hkv]
  · have hk : k ∉ storeKeys st := by
      intro hmem
      rcases List.mem_map.mp hmem with ⟨kv, hkv, he⟩
      exact h (List.any_eq_true.mpr ⟨kv, hkv, by simp [he]⟩)
    simp only [storeKeys] at hk
    simp [putBlob, h, hk, storeKeys]

theorem mem_storeKeys_putBlob {st : Store} {k d x} :
    x ∈ storeKeys (putBlob st k d) ↔ x ∈ storeKeys st ∨ x = k := by
  rw [storeKeys_putBlob]
  by_cases h : k ∈ storeKeys st
  · simp only [h, if_true]
    constructor
    · exact Or.inl
    · rintro (hx | rfl)
      · exact hx
      · exact h
  · simp [h]

/-! ### Split-based relative-path recovery -/

theorem dropAfterFirstOcc_of_not_occurs {sep l : List Char}
    (h : occursInB sep l = false) : dropAfterFirstOcc sep l = none := by
  induction l with
  | nil => rfl
  | cons c cs ih =>
    simp only [occursInB, Bool.or_eq_false_iff] at h
    simp [dropAfterFirstOcc, h.1, ih h.2]

theorem dropAfterFirstOcc_append (sep rel : List Char) (h : sep ≠ []) :
    dropAfterFirstOcc sep (sep ++ rel) = some rel := by
  match sep, h with
  | c :: cs, _ =>
    have hp : (c :: cs).isPrefixOf (c :: (cs ++ rel)) = true :=
      List.isPrefixOf_iff_prefix.mpr (List.prefix_append _ _)
    show dropAfterFirstOcc (c :: cs) (c :: (cs ++ rel)) = some rel
    simp only [dropAfterFirstOcc, hp, if_true]
    exact congrArg some (List.drop_left (c :: cs) rel)

theorem relPathOf_append (p rel : String)
    (h : occursInB (p ++ "/").data rel.data = false) :
    relPathOf p (p ++ "/" ++ rel) = rel := by
  have hsep : (p ++ "/").data ≠ [] := by
    simp [String.data_append]
  have hdata : (p ++ "/" ++ rel).data = (p ++ "/").data ++ rel.data :=
    String.data_append _ _
  unfold relPathOf
  rw [hdata]
  show String.mk (splitTailAux (p ++ "/").data 2 ((p ++ "/").data ++ rel.data)) = rel
  have h2 : splitTailAux (p ++ "/").data 2 ((p ++ "/").data ++ rel.data) =
      splitTailAux (p ++ "/").data 1 rel.data := by
    show splitTailAux (p ++ "/").data (1 + 1) ((p ++ "/").data ++ rel.data) =
      splitTailAux (p ++ "/").data 1 rel.data
    rw [splitTailAux, dropAfterFirstOcc_append _ _ hsep]
  have h1 : splitTailAux (p ++ "/").data 1 rel.data = rel.data := by
    show splitTailAux (p ++ "/").data (0 + 1) rel.data = rel.data
    rw [splitTailAux, dropAfterFirstOcc_of_not_occurs h]
  rw [h2, h1, strMk_data]

theorem uploadKey_eq (p rel : String) (hp : ¬ p = "")
    (hp2 : ¬ p.data.getLast? = some '/') (hr : ¬ rel.data.head? = some '/') :
    uploadKey p rel = p ++ "/" ++ rel := by
  simp [uploadKey, joinPath, hp, hp2, hr]

/-! ### Upload fold lemmas -/

theorem putBlob_of_not_mem {st : Store} {k : String} (d : Data)
    (h : k ∉ storeKeys st) : putBlob st k d = st ++ [(k, d)] := by
  have : st.any (fun kv => kv.1 = k) = false := by
    rw [Bool.eq_false_iff]
    intro hany
    rcases List.any_eq_true.mp hany with ⟨kv, hm, he⟩
    simp only [decide_eq_true_eq] at he
    exact h (he ▸ List.mem_map_of_mem _ hm)
  simp [putBlob, this]

theorem storeKeys_append (st : Store) (l : Store) :
    storeKeys (st ++ l) = storeKeys st ++ storeKeys l := by
  simp [storeKeys]

theorem foldl_uploadStep_fresh (fail : String → Nat → Bool) (p : String) :
    ∀ (l : Tree) (st : Store), (∀ k i, fail k i = false) →
    ((l.map (fun f => uploadKey p f.1)).Nodup) →
    (∀ f ∈ l, uploadKey p f.1 ∉ storeKeys st) →
    l.foldl (uploadStep fail p) st = st ++ l.map (fun f => (uploadKey p f.1, f.2))
  | [], st, _, _, _ => by simp
  | f :: fs, st, hnf, hnodup, hfresh => by
    have hok : transferOk (fail (uploadKey p f.1)) BLOB_OP_MAX_RETRIES = true :=
      transferOk_of_firstOk (hnf _ 0)
    have hstep : uploadStep fail p st f = st ++ [(uploadKey p f.1, f.2)] := by
      rw [uploadStep, if_pos hok, putBlob_of_not_mem _ (hfresh f (List.mem_cons_self _ _))]
    have hnodup' := (List.nodup_cons.mp hnodup)
    have hfresh' : ∀ g ∈ fs, uploadKey p g.1 ∉ storeKeys (st ++ [(uploadKey p f.1, f.2)]) := by
      intro g hg
      rw [storeKeys_append]
      intro hmem
      rcases List.mem_append.mp hmem with hmem | hmem
      · exact hfresh g (List.mem_cons_of_mem _ hg) hmem
      · have : uploadKey p g.1 = uploadKey p f.1 := by simpa [storeKeys] using hmem
        apply hnodup'.1
        show uploadKey p f.1 ∈ List.map (fun f => uploadKey p f.1) fs
        rw [← this]
        exact List.mem_map_of_mem _ hg
    calc (f :: fs).foldl (uploadStep fail p) st
        = fs.foldl (uploadStep fail p) (st ++ [(uploadKey p f.1, f.2)]) := by
          rw [List.foldl_cons, hstep]
      _ = st ++ [(uploadKey p f.1, f.2)] ++ fs.map (fun f => (uploadKey p f.1, f.2)) :=
          foldl_uploadStep_fresh fail p fs _ hnf hnodup'.2 hfresh'
      _ = st ++ (f :: fs).map (fun f => (uploadKey p f.1, f.2)) := by simp

theorem upload_folder_nofail (fail : String → Nat → Bool) (store : Store)
    (p : String) (tree : Tree) (hnf : ∀ k i, fail k i = false)
    (hnodup : ((globFiles tree).map (fun f => uploadKey p f.1)).Nodup)
    (hfresh : ∀ f ∈ globFiles tree, uploadKey p f.1 ∉ storeKeys store) :
    upload_folder fail store p tree =
      store ++ (globFiles tree).map (fun f => (uploadKey p f.1, f.2)) :=
  foldl_uploadStep_fresh fail p (globFiles tree) store hnf hnodup hfresh

theorem foldl_uploadStep_not_mem (fail : String → Nat → Bool) (p : String)
    (bkey : String) (hall : ∀ i, fail bkey i = true) :
    ∀ (l : Tree) (st : Store), bkey ∉ storeKeys st →
    bkey ∉ storeKeys (l.foldl (uploadStep fail p) st)
  | [], _, hks => hks
  | f :: fs, st, hks => by
    rw [List.foldl_cons]
    apply foldl_uploadStep_not_mem fail p bkey hall fs
    unfold uploadStep
    by_cases hk : uploadKey p f.1 = bkey
    · rw [hk, transferOk_of_allFail hall]
      simpa using hks
    · split
      · rw [mem_storeKeys_putBlob]
        rintro (h | h)
        · exact hks h
        · exact hk h.symm
      · exact hks

theorem upload_folder_allFail_not_mem (fail : String → Nat → Bool)
    (store : Store) (p : String) (tree : Tree) (bkey : String)
    (hall : ∀ i, fail bkey i = true) (hks : bkey ∉ storeKeys store) :
    bkey ∉ storeKeys (upload_folder fail store p tree) :=
  foldl_uploadStep_not_mem fail p bkey hall (globFiles tree) store hks

theorem foldl_uploadStep_mem_mono (fail : String → Nat → Bool) (p : String)
    (x : String) : ∀ (l : Tree) (st : Store), x ∈ storeKeys st →
    x ∈ storeKeys (l.foldl (uploadStep fail p) st)
  | [], _, hx => hx
  | f :: fs, st, hx => by
    rw [List.foldl_cons]
    apply foldl_uploadStep_mem_mono fail p x fs
    unfold uploadStep
    split
    · exact mem_storeKeys_putBlob.mpr (Or.inl hx)
    · exact hx

theorem mem_storeKeys_upload_folder (fail : String → Nat → Bool)
    (store : Store) (p : String) (tree : Tree) (x : String)
    (hx : x ∈ storeKeys store) : x ∈ storeKeys (upload_folder fail store p tree) :=
  foldl_uploadStep_mem_mono fail p x (globFiles tree) store hx

theorem foldl_uploadStep_adds (fail : String → Nat → Bool) (p : String) :
    ∀ (l : Tree) (st : Store) (f : String × Data), f ∈ l →
    transferOk (fail (uploadKey p f.1)) BLOB_OP_MAX_RETRIES = true →
    uploadKey p f.1 ∈ storeKeys (l.foldl (uploadStep fail p) st)
  | [], _, _, hf, _ => absurd hf (List.not_mem_nil _)
  | g :: gs, st, f, hf, hok => by
    rw [List.foldl_cons]
    rcases List.mem_cons.mp hf with rfl | hf'
    · apply foldl_uploadStep_mem_mono
      rw [uploadStep, if_pos hok]
      exact mem_storeKeys_putBlob.mpr (Or.inr rfl)
    · exact foldl_uploadStep_adds fail p gs _ f hf' hok

theorem uploadKey_mem_upload_folder (fail : String → Nat → Bool)
    (store : Store) (p : String) (tree : Tree) (f : String × Data)
    (hf : f ∈ tree) (hg : globMatches f.1 = true)
    (hok : transferOk (fail (uploadKey p f.1)) BLOB_OP_MAX_RETRIES = true) :
    uploadKey p f.1 ∈ storeKeys (upload_folder fail store p tree) :=
  foldl_uploadStep_adds fail p (globFiles tree) store f
    (List.mem_filter.mpr ⟨hf, by simpa using hg⟩) hok

/-! ### Download lemmas -/

theorem strAppend_assoc (a b c : String) : a ++ b ++ c = a ++ (b ++ c) :=
  String.append_assoc a b c

theorem filterMap_filter_eq {α β : Type} (g : α → Option β) (q : α → Bool) :
    ∀ (l : List α), (∀ x ∈ l, q x = false → g x = none) →
    (l.filter q).filterMap g = l.filterMap g
  | [], _ => rfl
  | x :: xs, h => by
    have ih := filterMap_filter_eq g q xs (fun y hy => h y (List.mem_cons_of_mem _ hy))
    by_cases hq : q x = true
    · rw [List.filter_cons_of_pos hq, List.filterMap_cons, List.filterMap_cons]
      cases g x <;> simp [ih]
    · have hq' : q x = false := by simpa using hq
      rw [List.filter_cons_of_neg (by simp [hq']), List.filterMap_cons,
        h x (List.mem_cons_self _ _) hq', ih]

theorem listBlobs_filter (store : Store) (p : String) (q : (String × Data) → Bool) :
    listBlobs (store.filter q) p = (listBlobs store p).filter q := by
  unfold listBlobs
  rw [List.filter_filter, List.filter_filter]
  exact List.filter_congr (fun kv _ => Bool.and_comm _ _)

theorem globFiles_eq_self {tree : Tree} (h : ∀ f ∈ tree, globMatches f.1 = true) :
    globFiles tree = tree :=
  List.filter_eq_self.mpr (fun f hf => by simpa using h f hf)

theorem listBlobs_eq_self {store : Store} {p : String}
    (h : ∀ kv ∈ store, strPrefix p kv.1 = true) : listBlobs store p = store :=
  List.filter_eq_self.mpr (fun kv hkv => by simpa using h kv hkv)

theorem mem_storeKeys_listBlobs {store : Store} {p x : String} :
    x ∈ storeKeys (listBlobs store p) ↔
      x ∈ storeKeys store ∧ strPrefix p x = true := by
  constructor
  · intro hmem
    rcases List.mem_map.mp hmem with ⟨kv, hkv, rfl⟩
    rcases List.mem_filter.mp hkv with ⟨h1, h2⟩
    exact ⟨List.mem_map_of_mem _ h1, by simpa using h2⟩
  · rintro ⟨hmem, hpre⟩
    rcases List.mem_map.mp hmem with ⟨kv, hkv, rfl⟩
    exact List.mem_map_of_mem _ (List.mem_filter.mpr ⟨hkv, by simpa using hpre⟩)

theorem download_folder_allFail_erase (fail : String → Nat → Bool)
    (store : Store) (p bkey : String) (hall : ∀ i, fail bkey i = true) :
    download_folder fail store p =
      download_folder fail (store.filter (fun kv => decide (¬ kv.1 = bkey))) p := by
  unfold download_folder
  rw [listBlobs_filter]
  refine (filterMap_filter_eq _ _ _ (fun kv _ hq => ?_)).symm
  have hkv : kv.1 = bkey := by simpa using hq
  rw [hkv, transferOk_of_allFail hall]
  simp

theorem download_folder_allFail_rel_not_mem (fail : String → Nat → Bool)
    (store : Store) (p bkey : String) (hall : ∀ i, fail bkey i = true)
    (hrel : ∀ kv ∈ store, ¬ kv.1 = bkey → ¬ relPathOf p kv.1 = relPathOf p bkey) :
    relPathOf p bkey ∉ (download_folder fail store p).map (fun f => f.1) := by
  intro hmem
  rcases List.mem_map.mp hmem with ⟨f, hf, hfeq⟩
  rcases List.mem_filterMap.mp hf with ⟨kv, hkv, hsome⟩
  by_cases hk : kv.1 = bkey
  · rw [hk, transferOk_of_allFail hall] at hsome
    simp at hsome
  · have hkv' : kv ∈ store := (List.mem_filter.mp hkv).1
    by_cases hok : transferOk (fail kv.1) BLOB_OP_MAX_RETRIES = true
    · rw [if_pos hok] at hsome
      have : f.1 = relPathOf p kv.1 := by
        rw [← Option.some_inj.mp hsome]
      exact hrel kv hkv' hk (by rw [← this, hfeq])
    · rw [if_neg hok] at hsome
      exact Option.noConfusion hsome

theorem download_folder_nofail (fail : String → Nat → Bool) (store : Store)
    (p : String) (hnf : ∀ k i, fail k i = false) :
    download_folder fail store p =
      (listBlobs store p).map (fun kv => (relPathOf p kv.1, kv.2)) := by
  unfold download_folder
  have hif : ∀ kv : String × Data,
      (if transferOk (fail kv.1) BLOB_OP_MAX_RETRIES then
        some (relPathOf p kv.1, kv.2) else none) = some (relPathOf p kv.1, kv.2) :=
    fun kv => if_pos (transferOk_of_firstOk (hnf kv.1 0))
  simp only [hif]
  exact List.filterMap_eq_map _ ▸ rfl

/-! ### Claim C1 -/

/-- C1: for a transfer task (a listed blob in `download_folder`, or the
target of an enumerated file in `upload_folder`) whose underlying store
operation fails on every attempt, exactly `BLOB_OP_MAX_RETRIES = 3`
attempts are made, the object/file is absent from the destination
afterward (the download result contains no entry at its relative path and
equals the result computed without the failing blob; the upload leaves its
target key out of the store), and the enclosing `download_folder` /
`upload_folder` call still completes normally — both embeddings are total
functions because the loop body catches every per-attempt exception. -/
theorem C1_bounded_retry (fail : String → Nat → Bool) (dstore ustore : Store)
    (p : String) (tree : Tree) (bkey : String)
    (hall : ∀ i, fail bkey i = true)
    (hrel : ∀ kv ∈ dstore, ¬ kv.1 = bkey → ¬ relPathOf p kv.1 = relPathOf p bkey)
    (hks : bkey ∉ storeKeys ustore) :
    attemptsMade (fail bkey) BLOB_OP_MAX_RETRIES = 3
    ∧ download_folder fail dstore p =
        download_folder fail (dstore.filter (fun kv => decide (¬ kv.1 = bkey))) p
    ∧ relPathOf p bkey ∉ (download_folder fail dstore p).map (fun f => f.1)
    ∧ bkey ∉ storeKeys (upload_folder fail ustore p tree) :=
  ⟨attemptsMade_of_allFail hall,
   download_folder_allFail_erase fail dstore p bkey hall,
   download_folder_allFail_rel_not_mem fail dstore p bkey hall hrel,
   upload_folder_allFail_not_mem fail ustore p tree bkey hall hks⟩

/-- Witness for C1 at a concrete always-failing blob. -/
theorem C1_bounded_retry_witness :
    attemptsMade ((fun k (_ : Nat) => decide (k = "snapshot/bad.csv")) "snapshot/bad.csv")
        BLOB_OP_MAX_RETRIES = 3
    ∧ download_folder (fun k _ => decide (k = "snapshot/bad.csv"))
        [("snapshot/bad.csv", [1]), ("snapshot/ok.csv", [2])] "snapshot" =
      download_folder (fun k _ => decide (k = "snapshot/bad.csv"))
        ([("snapshot/bad.csv", [1]), ("snapshot/ok.csv", [2])].filter
          (fun kv => decide (¬ kv.1 = "snapshot/bad.csv"))) "snapshot"
    ∧ relPathOf "snapshot" "snapshot/bad.csv" ∉
        (download_folder (fun k _ => decide (k = "snapshot/bad.csv"))
          [("snapshot/bad.csv", [1]), ("snapshot/ok.csv", [2])] "snapshot").map
          (fun f => f.1)
    ∧ "snapshot/bad.csv" ∉ storeKeys (upload_folder
        (fun k _ => decide (k = "snapshot/bad.csv"))
        [("snapshot/ok.csv", [2])] "snapshot" [("new.csv", [3])]) :=
  C1_bounded_retry (fun k _ => decide (k = "snapshot/bad.csv"))
    [("snapshot/bad.csv", [1]), ("snapshot/ok.csv", [2])]
    [("snapshot/ok.csv", [2])] "snapshot"
    [("new.csv", [3])] "snapshot/bad.csv"
    (fun _ => rfl) (by decide) (by decide)

/-! ### Claim C2 -/

/-- C2 counterexample: `upload_folder` enumerates with
`glob("**/*.*")`, so a regular file named `README` (no dot) under the
local folder is skipped entirely — its remote key is never written, even
though every transfer attempt would succeed.  This refutes the claim that
no regular file under `localDir` is skipped. -/
theorem C2_counterexample :
    upload_folder (fun _ _ => false) [] "snapshot" [("README", [1])] = []
    ∧ "snapshot/README" ∉
        storeKeys (upload_folder (fun _ _ => false) [] "snapshot" [("README", [1])]) := by
  decide

/-- C2 (amended): when no transfer attempt fails, `upload_folder` uploads
exactly the files whose filename contains a dot (the matches of
`glob("**/*.*")`), each to the remote key
`os.path.join(remotePrefix, relativePath)`; files without a dot in their
name are skipped. -/
theorem C2_upload_globbed (fail : String → Nat → Bool) (store : Store)
    (p : String) (tree : Tree) (hnf : ∀ k i, fail k i = false)
    (hnodup : ((globFiles tree).map (fun f => uploadKey p f.1)).Nodup)
    (hfresh : ∀ f ∈ globFiles tree, uploadKey p f.1 ∉ storeKeys store) :
    upload_folder fail store p tree =
      store ++ (globFiles tree).map (fun f => (uploadKey p f.1, f.2)) :=
  upload_folder_nofail fail store p tree hnf hnodup hfresh

/-- Witness for C2 (amended): a dotted file is uploaded, the dotless one
is not. -/
theorem C2_upload_globbed_witness :
    upload_folder (fun _ _ => false) [] "snapshot" [("a.csv", [1]), ("README", [2])] =
      [("snapshot/a.csv", [1])] :=
  (C2_upload_globbed (fun _ _ => false) [] "snapshot"
    [("a.csv", [1]), ("README", [2])] (fun _ _ => rfl) (by decide) (by decide)).trans
    (by decide)

/-! ### Claim C3 -/

/-- C3 counterexample: round-trip fidelity fails for a tree containing a
dotless filename even though no transfer attempt ever fails — `README` is
skipped by the upload glob, so the downloaded tree is empty. -/
theorem C3_counterexample :
    download_folder (fun _ _ => false)
        (upload_folder (fun _ _ => false) [] "snapshot" [("README", [1])])
        "snapshot" ≠ [("README", [1])] := by
  decide

/-- C3 (amended): uploading a tree with `upload_folder` into an empty
store and downloading it back with `download_folder` under the same
prefix reproduces the tree exactly, provided no transfer attempt fails,
the prefix is nonempty and does not end in a slash, every filename
contains a dot (so the glob keeps it), no relative path starts with a
slash, relative paths are distinct, and no relative path contains
`prefix + "/"` as a substring (otherwise `split(prefix + "/", 2)[-1]`
strips too much). -/
theorem C3_roundtrip (fail : String → Nat → Bool) (p : String) (tree : Tree)
    (hnf : ∀ k i, fail k i = false) (hp : ¬ p = "")
    (hp2 : ¬ p.data.getLast? = some '/')
    (hdots : ∀ f ∈ tree, globMatches f.1 = true)
    (hnoslash : ∀ f ∈ tree, ¬ f.1.data.head? = some '/')
    (hnodup : (tree.map (fun f => f.1)).Nodup)
    (hnosub : ∀ f ∈ tree, occursInB (p ++ "/").data f.1.data = false) :
    download_folder fail (upload_folder fail [] p tree) p = tree := by
  have hkeq : ∀ f ∈ tree, uploadKey p f.1 = p ++ "/" ++ f.1 :=
    fun f hf => uploadKey_eq p f.1 hp hp2 (hnoslash f hf)
  have hglob : globFiles tree = tree := globFiles_eq_self hdots
  have hinj : Function.Injective (fun s => p ++ "/" ++ s) :=
    fun a b h => strAppend_left_cancel h
  have hnodup1 : (tree.map (fun f => uploadKey p f.1)).Nodup := by
    rw [List.map_congr_left hkeq,
      show (fun (f : String × Data) => p ++ "/" ++ f.1) =
        ((fun s => p ++ "/" ++ s) ∘ (fun (f : String × Data) => f.1)) from rfl,
      ← List.map_map]
    exact hnodup.map hinj
  have hup : upload_folder fail [] p tree =
      tree.map (fun f => (uploadKey p f.1, f.2)) := by
    have h0 := upload_folder_nofail fail [] p tree hnf
      (by rw [hglob]; exact hnodup1) (by intro f _; simp [storeKeys])
    rw [hglob] at h0
    simpa using h0
  rw [hup]
  have hpre : ∀ kv ∈ tree.map (fun f => (uploadKey p f.1, f.2)),
      strPrefix p kv.1 = true := by
    intro kv hkv
    rcases List.mem_map.mp hkv with ⟨f, hf, rfl⟩
    rw [hkeq f hf, strAppend_assoc]
    exact strPrefix_append p _
  rw [download_folder_nofail fail _ p hnf, listBlobs_eq_self hpre, List.map_map]
  have hid : ∀ f ∈ tree,
      ((fun kv : String × Data => (relPathOf p kv.1, kv.2)) ∘
        (fun f : String × Data => (uploadKey p f.1, f.2))) f = f := by
    intro f hf
    simp only [Function.comp]
    rw [hkeq f hf, relPathOf_append p f.1 (hnosub f hf)]
  rw [List.map_congr_left hid]
  exact List.map_id tree

/-- Witness for C3 (amended) on a concrete two-file tree. -/
theorem C3_roundtrip_witness :
    download_folder (fun _ _ => false)
        (upload_folder (fun _ _ => false) [] "snapshot"
          [("a/b.csv", [1]), ("c.csv", [2])]) "snapshot" =
      [("a/b.csv", [1]), ("c.csv", [2])] :=
  C3_roundtrip (fun _ _ => false) "snapshot" [("a/b.csv", [1]), ("c.csv", [2])]
    (fun _ _ => rfl) (by decide) (by decide) (by decide) (by decide) (by decide)
    (by decide)

/-! ### Stage-orchestration lemmas -/

/-- Whether `assert table_name in list(get_table_names())` passes. -/
def assertPasses (t? : Option String) (reg : List String) : Bool :=
  match t? with
  | some t => decide (t ∈ reg)
  | none => false

theorem update_table_known (load : String → PipelineModel) (registry : List String)
    (ws : String) (fail : String → Nat → Bool) (store : Store)
    (tableArg : Option String) (idxArg : Option Int)
    (reqTable : Option String) (reqIdx : Option Int) (t : String)
    (h : pyOrStr tableArg reqTable = some t) (ht : t ∈ registry) :
    (update_table load registry ws fail store tableArg idxArg reqTable reqIdx).2.2 ≠
        StageOutcome.assertionError
    ∧ (update_table load registry ws fail store tableArg idxArg reqTable reqIdx).1.head? =
        some (Event.workspaceAlloc ws) := by
  simp only [update_table, h, ht, if_true]
  cases hpo : pyOrInt idxArg reqIdx with
  | none => simp
  | some i =>
    cases hpi : pyIndex (load (dashToUnderscore t)).sources i with
    | none => simp [hpi]
    | some s => simp [hpi]

theorem combine_table_known (load : String → PipelineModel) (registry : List String)
    (ws : String) (fail : String → Nat → Bool) (store : Store)
    (tableArg : Option String) (reqTable : Option String) (t : String)
    (h : pyOrStr tableArg reqTable = some t) (ht : t ∈ registry) :
    (combine_table load registry ws fail store tableArg reqTable).2.2 =
        StageOutcome.ok "OK"
    ∧ (combine_table load registry ws fail store tableArg reqTable).1.head? =
        some (Event.workspaceAlloc ws) := by
  simp [combine_table, h, ht]

theorem updateRunEvents_prefixes (ws pname : String) (srcs : List String) :
    prefixesWritten [Event.workspaceAlloc ws, Event.makeDir (ws ++ "/snapshot"),
      Event.makeDir (ws ++ "/intermediate"), Event.pipelineLoad pname,
      Event.parseRun srcs, Event.saveIntermediate (ws ++ "/intermediate"),
      Event.storeUpload GCS_BUCKET_TEST "snapshot" (ws ++ "/snapshot"),
      Event.storeUpload GCS_BUCKET_TEST "intermediate" (ws ++ "/intermediate")] =
      ["snapshot", "intermediate"] := by
  simp [prefixesWritten]

theorem updateRunEvents_local (ws pname : String) (srcs : List String) :
    ∀ d ∈ localPathsTouched [Event.workspaceAlloc ws,
      Event.makeDir (ws ++ "/snapshot"), Event.makeDir (ws ++ "/intermediate"),
      Event.pipelineLoad pname, Event.parseRun srcs,
      Event.saveIntermediate (ws ++ "/intermediate"),
      Event.storeUpload GCS_BUCKET_TEST "snapshot" (ws ++ "/snapshot"),
      Event.storeUpload GCS_BUCKET_TEST "intermediate" (ws ++ "/intermediate")],
      strPrefix ws d = true := by
  have hpaths : localPathsTouched [Event.workspaceAlloc ws,
      Event.makeDir (ws ++ "/snapshot"), Event.makeDir (ws ++ "/intermediate"),
      Event.pipelineLoad pname, Event.parseRun srcs,
      Event.saveIntermediate (ws ++ "/intermediate"),
      Event.storeUpload GCS_BUCKET_TEST "snapshot" (ws ++ "/snapshot"),
      Event.storeUpload GCS_BUCKET_TEST "intermediate" (ws ++ "/intermediate")] =
      [ws, ws ++ "/snapshot", ws ++ "/intermediate", ws ++ "/intermediate",
       ws ++ "/snapshot", ws ++ "/intermediate"] := by
    simp [localPathsTouched]
  intro d hd
  rw [hpaths] at hd
  simp only [List.mem_cons, List.not_mem_nil, or_false] at hd
  rcases hd with rfl | rfl | rfl | rfl | rfl | rfl <;>
    first
      | exact strPrefix_refl _
      | exact strPrefix_append _ _

theorem update_table_ok_shape (load : String → PipelineModel) (registry : List String)
    (ws : String) (fail : String → Nat → Bool) (store : Store)
    (tableArg : Option String) (idxArg : Option Int)
    (reqTable : Option String) (reqIdx : Option Int) (resp : String)
    (hok : (update_table load registry ws fail store tableArg idxArg reqTable reqIdx).2.2 =
      StageOutcome.ok resp) :
    prefixesWritten
        (update_table load registry ws fail store tableArg idxArg reqTable reqIdx).1 =
      ["snapshot", "intermediate"]
    ∧ ∀ d ∈ localPathsTouched
        (update_table load registry ws fail store tableArg idxArg reqTable reqIdx).1,
        strPrefix ws d = true := by
  cases h : pyOrStr tableArg reqTable with
  | none => rw [update_table] at hok; simp [h] at hok
  | some t =>
    by_cases ht : t ∈ registry
    · rw [update_table] at hok ⊢
      simp only [h, ht, if_true] at hok ⊢
      cases hpo : pyOrInt idxArg reqIdx with
      | none =>
        simp only [hpo] at hok ⊢
        exact ⟨updateRunEvents_prefixes ws _ _, updateRunEvents_local ws _ _⟩
      | some i =>
        cases hpi : pyIndex (load (dashToUnderscore t)).sources i with
        | none => simp [hpo, hpi] at hok
        | some s =>
          simp only [hpo, hpi] at hok ⊢
          exact ⟨updateRunEvents_prefixes ws _ _, updateRunEvents_local ws _ _⟩
    · rw [update_table] at hok; simp [h, ht] at hok

/-! ### Claim C4 -/

/-- C4: calling `update_table` (and likewise `combine_table`) with a
resolved table name absent from the known-table registry (including a
missing/empty name) fails the assertion before anything happens — the
event trace is empty and the store untouched; with a registered name the
assertion passes, the stage allocates its workspace first and never ends
in an assertion error. -/
theorem C4_assert_guard (load : String → PipelineModel) (registry : List String)
    (ws : String) (fail : String → Nat → Bool) (store : Store)
    (tableArg : Option String) (idxArg : Option Int)
    (reqTable : Option String) (reqIdx : Option Int) :
    (assertPasses (pyOrStr tableArg reqTable) registry = false →
      update_table load registry ws fail store tableArg idxArg reqTable reqIdx =
          ([], store, StageOutcome.assertionError)
      ∧ combine_table load registry ws fail store tableArg reqTable =
          ([], store, StageOutcome.assertionError))
    ∧ (assertPasses (pyOrStr tableArg reqTable) registry = true →
      (update_table load registry ws fail store tableArg idxArg reqTable reqIdx).2.2 ≠
          StageOutcome.assertionError
      ∧ (update_table load registry ws fail store tableArg idxArg reqTable reqIdx).1.head? =
          some (Event.workspaceAlloc ws)
      ∧ (combine_table load registry ws fail store tableArg reqTable).2.2 =
          StageOutcome.ok "OK"
      ∧ (combine_table load registry ws fail store tableArg reqTable).1.head? =
          some (Event.workspaceAlloc ws)) := by
  constructor
  · intro hfail
    cases h : pyOrStr tableArg reqTable with
    | none => exact ⟨by simp [update_table, h], by simp [combine_table, h]⟩
    | some t =>
      have ht : ¬ t ∈ registry := by simpa [assertPasses, h] using hfail
      exact ⟨by simp [update_table, h, ht], by simp [combine_table, h, ht]⟩
  · intro hpass
    cases h : pyOrStr tableArg reqTable with
    | none => simp [assertPasses, h] at hpass
    | some t =>
      have ht : t ∈ registry := by simpa [assertPasses, h] using hpass
      obtain ⟨hu1, hu2⟩ := update_table_known load registry ws fail store
        tableArg idxArg reqTable reqIdx t h ht
      obtain ⟨hc1, hc2⟩ := combine_table_known load registry ws fail store
        tableArg reqTable t h ht
      exact ⟨hu1, hu2, hc1, hc2⟩

/-- Witness for C4 at a concrete registry, one rejected and one accepted
table name. -/
theorem C4_assert_guard_witness :
    update_table (fun _ => ⟨[], fun _ => ([], []), fun _ => []⟩) ["epidemiology"]
        "ws" (fun _ _ => false) [] (some "zzz") none none none =
      ([], [], StageOutcome.assertionError)
    ∧ (update_table (fun _ => ⟨[], fun _ => ([], []), fun _ => []⟩) ["epidemiology"]
        "ws" (fun _ _ => false) [] (some "epidemiology") none none none).1.head? =
      some (Event.workspaceAlloc "ws") :=
  ⟨(C4_assert_guard (fun _ => ⟨[], fun _ => ([], []), fun _ => []⟩) ["epidemiology"]
      "ws" (fun _ _ => false) [] (some "zzz") none none none).1 (by decide) |>.1,
   ((C4_assert_guard (fun _ => ⟨[], fun _ => ([], []), fun _ => []⟩) ["epidemiology"]
      "ws" (fun _ _ => false) [] (some "epidemiology") none none none).2 (by decide)).2.1⟩

/-! ### Claim C5 -/

/-- C5 counterexample: two `update_table` runs for the distinct registered
table names "x" and "y" both upload under the remote key prefix
"snapshot" (and "intermediate") — the remote prefixes are fixed by the
stage, not namespaced by table name, so the prefix sets are not disjoint. -/
theorem C5_counterexample :
    ¬ (∀ q ∈ prefixesWritten (update_table
        (fun _ => ⟨[], fun _ => ([], []), fun _ => []⟩) ["x", "y"] "wsx"
        (fun _ _ => false) [] (some "x") none none none).1,
      q ∉ prefixesWritten (update_table
        (fun _ => ⟨[], fun _ => ([], []), fun _ => []⟩) ["x", "y"] "wsy"
        (fun _ _ => false) [] (some "y") none none none).1) := by
  decide

/-- C5 (amended): every successful `update_table` run writes exactly the
remote key prefixes "snapshot" and "intermediate", independent of the
table name — so two runs for different table names write the *same*
remote prefixes rather than disjoint ones — while every local path a run
touches lies under its own scratch workspace, so runs with distinct
scratch directories touch disjoint local trees. -/
theorem C5_stage_isolation (load load' : String → PipelineModel)
    (registry registry' : List String) (wsx wsy : String)
    (fail fail' : String → Nat → Bool) (store store' : Store)
    (targx targy : Option String) (iargx iargy : Option Int)
    (rTx rTy : Option String) (rIx rIy : Option Int) (respx respy : String)
    (hx : (update_table load registry wsx fail store targx iargx rTx rIx).2.2 =
      StageOutcome.ok respx)
    (hy : (update_table load' registry' wsy fail' store' targy iargy rTy rIy).2.2 =
      StageOutcome.ok respy) :
    prefixesWritten (update_table load registry wsx fail store targx iargx rTx rIx).1 =
      prefixesWritten (update_table load' registry' wsy fail' store' targy iargy rTy rIy).1
    ∧ prefixesWritten (update_table load registry wsx fail store targx iargx rTx rIx).1 =
      ["snapshot", "intermediate"]
    ∧ (∀ d ∈ localPathsTouched
        (update_table load registry wsx fail store targx iargx rTx rIx).1,
        strPrefix wsx d = true)
    ∧ (∀ d ∈ localPathsTouched
        (update_table load' registry' wsy fail' store' targy iargy rTy rIy).1,
        strPrefix wsy d = true) := by
  obtain ⟨hpx, hlx⟩ := update_table_ok_shape load registry wsx fail store
    targx iargx rTx rIx respx hx
  obtain ⟨hpy, hly⟩ := update_table_ok_shape load' registry' wsy fail' store'
    targy iargy rTy rIy respy hy
  exact ⟨hpx.trans hpy.symm, hpx, hlx, hly⟩

/-- Witness for C5 (amended) on two concrete successful runs. -/
theorem C5_stage_isolation_witness :
    prefixesWritten (update_table
        (fun _ => ⟨[], fun _ => ([], []), fun _ => []⟩) ["x", "y"] "wsx"
        (fun _ _ => false) [] (some "x") none none none).1 =
      prefixesWritten (update_table
        (fun _ => ⟨[], fun _ => ([], []), fun _ => []⟩) ["x", "y"] "wsy"
        (fun _ _ => false) [] (some "y") none none none).1 :=
  (C5_stage_isolation (fun _ => ⟨[], fun _ => ([], []), fun _ => []⟩)
    (fun _ => ⟨[], fun _ => ([], []), fun _ => []⟩) ["x", "y"] ["x", "y"]
    "wsx" "wsy" (fun _ _ => false) (fun _ _ => false) [] []
    (some "x") (some "y") none none none none none none "OK" "OK"
    (by decide) (by decide)).1

/-! ### Claim C10 -/

/-- C10: in `update_table`, the Python `or` fallback treats a direct
argument `idx = 0` exactly like no argument (the filter falls back to the
request's idx parameter, so source 0 cannot be selected via the direct
argument), a nonzero direct idx takes effect regardless of the request
parameter, and a direct empty-string table name likewise falls back to
the request's table parameter. -/
theorem C10_falsy_arguments (load : String → PipelineModel) (registry : List String)
    (ws : String) (fail : String → Nat → Bool) (store : Store)
    (tableArg : Option String) (reqTable : Option String) (reqIdx reqIdx' : Option Int) :
    (update_table load registry ws fail store tableArg (some 0) reqTable reqIdx =
      update_table load registry ws fail store tableArg none reqTable reqIdx)
    ∧ (∀ i : Int, ¬ i = 0 →
        update_table load registry ws fail store tableArg (some i) reqTable reqIdx =
          update_table load registry ws fail store tableArg (some i) reqTable reqIdx')
    ∧ (∀ idxArg : Option Int,
        update_table load registry ws fail store (some "") idxArg reqTable reqIdx =
          update_table load registry ws fail store none idxArg reqTable reqIdx) := by
  refine ⟨?_, fun i hi => ?_, fun idxArg => ?_⟩
  · simp only [update_table]
    rw [show pyOrInt (some 0) reqIdx = pyOrInt none reqIdx by
      simp [pyOrInt, pyTruthyInt]]
  · simp only [update_table]
    rw [show pyOrInt (some i) reqIdx = some i by simp [pyOrInt, pyTruthyInt, hi],
      show pyOrInt (some i) reqIdx' = some i by simp [pyOrInt, pyTruthyInt, hi]]
  · simp only [update_table]
    rw [show pyOrStr (some "") reqTable = pyOrStr none reqTable by
      simp [pyOrStr, pyTruthyStr]]

/-- Witness for C10: a nonzero direct idx ignores the request idx. -/
theorem C10_falsy_arguments_witness :
    update_table (fun _ => ⟨["s0", "s1"], fun _ => ([], []), fun _ => []⟩)
        ["x"] "ws" (fun _ _ => false) [] (some "x") (some 1) none (some 0) =
      update_table (fun _ => ⟨["s0", "s1"], fun _ => ([], []), fun _ => []⟩)
        ["x"] "ws" (fun _ _ => false) [] (some "x") (some 1) none none :=
  ((C10_falsy_arguments (fun _ => ⟨["s0", "s1"], fun _ => ([], []), fun _ => []⟩)
    ["x"] "ws" (fun _ _ => false) [] (some "x") none (some 0) none).2.1 1
    (by decide))

/-! ### Code-point order: totality, transitivity, sortedness -/

theorem lexLe_total : ∀ x y : List Char, lexLe x y = true ∨ lexLe y x = true
  | [], _ => Or.inl rfl
  | _ :: _, [] => Or.inr rfl
  | a :: as, b :: bs => by
    rcases lt_trichotomy a b with h | h | h
    · left; simp [lexLe, h]
    · subst h
      rcases lexLe_total as bs with ih | ih
      · left; simp [lexLe, lt_irrefl, ih]
      · right; simp [lexLe, lt_irrefl, ih]
    · right; simp [lexLe, h]

theorem lexLe_trans : ∀ x y z : List Char,
    lexLe x y = true → lexLe y z = true → lexLe x z = true
  | [], _, _, _, _ => rfl
  | _ :: _, [], _, h1, _ => by simp [lexLe] at h1
  | _ :: _, _ :: _, [], _, h2 => by simp [lexLe] at h2
  | a :: as, b :: bs, c :: cs, h1, h2 => by
    by_cases hab : a < b
    · by_cases hbc : b < c
      · simp [lexLe, lt_trans hab hbc]
      · by_cases hcb : c < b
        · simp [lexLe, hbc, hcb] at h2
        · have hbc' : b = c := le_antisymm (not_lt.mp hcb) (not_lt.mp hbc)
          subst hbc'
          simp [lexLe, hab]
    · by_cases hba : b < a
      · simp [lexLe, hab, hba] at h1
      · have hab' : a = b := le_antisymm (not_lt.mp hba) (not_lt.mp hab)
        subst hab'
        simp only [lexLe, lt_irrefl, if_false] at h1
        by_cases hac : a < c
        · simp [lexLe, hac]
        · by_cases hca : c < a
          · simp [lexLe, hac, hca] at h2
          · have hac' : a = c := le_antisymm (not_lt.mp hca) (not_lt.mp hac)
            subst hac'
            simp only [lexLe, lt_irrefl, if_false] at h2 ⊢
            exact lexLe_trans as bs cs h1 h2

theorem pyStrLe_total (a b : String) : pyStrLe a b = true ∨ pyStrLe b a = true :=
  lexLe_total a.data b.data

theorem pyStrLe_trans {a b c : String} (h1 : pyStrLe a b = true)
    (h2 : pyStrLe b c = true) : pyStrLe a c = true :=
  lexLe_trans a.data b.data c.data h1 h2

instance : IsTotal String (fun a b => pyStrLe a b = true) := ⟨pyStrLe_total⟩

instance : IsTrans String (fun a b => pyStrLe a b = true) :=
  ⟨fun _ _ _ => pyStrLe_trans⟩

theorem sortStrings_sorted (l : List String) :
    (sortStrings l).Sorted (fun a b => pyStrLe a b = true) :=
  List.sorted_insertionSort _ l

theorem mem_sortStrings {l : List String} {x : String} :
    x ∈ sortStrings l ↔ x ∈ l :=
  List.mem_insertionSort _

/-! ### Dictionary-bucket lemmas -/

theorem getBucket_mapUpd_self :
    ∀ (m : List (String × List String)) (k v : String),
    m.any (fun kv => kv.1 = k) = true →
    getBucket (m.map (fun kv => if kv.1 = k then (kv.1, kv.2 ++ [v]) else kv)) k =
      getBucket m k ++ [v]
  | [], k, v, h => by simp at h
  | kv :: m, k, v, h => by
    by_cases h1 : kv.1 = k
    · simp [getBucket, h1]
    · have h' : m.any (fun kv => kv.1 = k) = true := by
        simpa [List.any_cons, h1] using h
      have ih := getBucket_mapUpd_self m k v h'
      simp [getBucket, h1, ih]

theorem getBucket_of_not_any :
    ∀ (m : List (String × List String)) (k : String),
    m.any (fun kv => kv.1 = k) = false → getBucket m k = []
  | [], _, _ => rfl
  | kv :: m, k, h => by
    have h1 : ¬ kv.1 = k := by
      intro he
      simp [List.any_cons, he] at h
    have h' : m.any (fun kv => kv.1 = k) = false := by
      simpa [List.any_cons, h1] using h
    simp [getBucket, h1, getBucket_of_not_any m k h']

theorem getBucket_append_single :
    ∀ (m : List (String × List String)) (k : String) (l : List String),
    m.any (fun kv => kv.1 = k) = false → getBucket (m ++ [(k, l)]) k = l
  | [], k, l, _ => by simp [getBucket]
  | kv :: m, k, l, h => by
    have h1 : ¬ kv.1 = k := by
      intro he
      simp [List.any_cons, he] at h
    have h' : m.any (fun kv => kv.1 = k) = false := by
      simpa [List.any_cons, h1] using h
    simp [getBucket, h1, getBucket_append_single m k l h']

theorem getBucket_bucketAppend_self (m : List (String × List String))
    (k v : String) : getBucket (bucketAppend m k v) k = getBucket m k ++ [v] := by
  unfold bucketAppend
  by_cases h : m.any (fun kv => kv.1 = k) = true
  · rw [if_pos h]
    exact getBucket_mapUpd_self m k v h
  · have h' : m.any (fun kv => kv.1 = k) = false := Bool.eq_false_iff.mpr h
    rw [if_neg h, getBucket_append_single m k [v] h', getBucket_of_not_any m k h']
    rfl

theorem getBucket_mapUpd_ne :
    ∀ (m : List (String × List String)) (k v k' : String), ¬ k' = k →
    getBucket (m.map (fun kv => if kv.1 = k then (kv.1, kv.2 ++ [v]) else kv)) k' =
      getBucket m k'
  | [], _, _, _, _ => rfl
  | kv :: m, k, v, k', h => by
    have ih := getBucket_mapUpd_ne m k v k' h
    by_cases h1 : kv.1 = k
    · have hkk' : ¬ k = k' := fun he => h he.symm
      simp [getBucket, h1, hkk', ih]
    · have hupd : (if kv.1 = k then (kv.1, kv.2 ++ [v]) else kv) = kv := if_neg h1
      rw [List.map_cons, hupd]
      by_cases hk' : kv.1 = k' <;> simp [getBucket, hk', ih]

theorem getBucket_append_ne :
    ∀ (m : List (String × List String)) (k : String) (l : List String)
    (k' : String), ¬ k' = k → getBucket (m ++ [(k, l)]) k' = getBucket m k'
  | [], k, l, k', h => by
    have hkk' : ¬ k = k' := fun he => h he.symm
    simp [getBucket, hkk']
  | kv :: m, k, l, k', h => by
    have ih := getBucket_append_ne m k l k' h
    by_cases hk' : kv.1 = k' <;> simp [getBucket, hk', ih]

theorem getBucket_bucketAppend_ne (m : List (String × List String))
    (k v k' : String) (h : ¬ k' = k) :
    getBucket (bucketAppend m k v) k' = getBucket m k' := by
  unfold bucketAppend
  by_cases hany : m.any (fun kv => kv.1 = k) = true
  · rw [if_pos hany]
    exact getBucket_mapUpd_ne m k v k' h
  · rw [if_neg hany]
    exact getBucket_append_ne m k [v] k' h

/-! ### Cache-map fold lemmas -/

theorem getBucket_bucketAppend_mono {m : List (String × List String)}
    {k x : String} (h : x ∈ getBucket m k) (k' v : String) :
    x ∈ getBucket (bucketAppend m k' v) k := by
  by_cases hk : k = k'
  · subst hk
    rw [getBucket_bucketAppend_self]
    exact List.mem_append_left _ h
  · rw [getBucket_bucketAppend_ne m k' v k hk]
    exact h

theorem getBucket_cacheStep_mono {m : List (String × List String)}
    {k x : String} (h : x ∈ getBucket m k) (b : String) :
    x ∈ getBucket (cacheStep m b) k := by
  unfold cacheStep
  split
  · exact h
  · exact getBucket_bucketAppend_mono h _ _

theorem getBucket_foldl_mono {k x : String} :
    ∀ (blobs : List String) (m0 : List (String × List String)),
    x ∈ getBucket m0 k → x ∈ getBucket (blobs.foldl cacheStep m0) k
  | [], _, h => h
  | b :: bs, m0, h =>
    getBucket_foldl_mono bs (cacheStep m0 b) (getBucket_cacheStep_mono h b)

theorem mem_getBucket_cacheFold {x : String} :
    ∀ (blobs : List String) (m0 : List (String × List String)), x ∈ blobs →
    ¬ lastComponent x = "sitemap.json" →
    x ∈ getBucket (blobs.foldl cacheStep m0) (beforeFirstDot (lastComponent x))
  | [], _, hx, _ => absurd hx (List.not_mem_nil _)
  | b :: bs, m0, hx, hs => by
    rcases List.mem_cons.mp hx with rfl | hx'
    · apply getBucket_foldl_mono bs
      rw [show cacheStep m0 x =
          bucketAppend m0 (beforeFirstDot (lastComponent x)) x from if_neg hs,
        getBucket_bucketAppend_self]
      exact List.mem_append_right _ (List.mem_singleton.mpr rfl)
    · exact mem_getBucket_cacheFold bs (cacheStep m0 b) hx' hs

theorem getBucket_map_sort :
    ∀ (m : List (String × List String)) (k : String),
    getBucket (m.map (fun kv => (kv.1, sortStrings kv.2))) k =
      sortStrings (getBucket m k)
  | [], _ => rfl
  | kv :: m, k => by
    by_cases hk : kv.1 = k <;> simp [getBucket, hk, getBucket_map_sort m k]

theorem mem_getBucket_cache_build_map {blobs : List String} {x : String}
    (hx : x ∈ blobs) (hs : ¬ lastComponent x = "sitemap.json") :
    x ∈ getBucket (cache_build_map blobs) (beforeFirstDot (lastComponent x)) := by
  unfold cache_build_map
  rw [getBucket_map_sort]
  exact mem_sortStrings.mpr (mem_getBucket_cacheFold blobs [] hx hs)

/-! ### Manifest membership characterization -/

theorem manifestHas_iff {m : List (String × List String)} {x : String} :
    manifestHas m x = true ↔ ∃ kv ∈ m, x ∈ kv.2 := by
  simp [manifestHas, List.any_eq_true]

theorem manifestHas_bucketAppend (m : List (String × List String))
    (k v x : String) :
    manifestHas (bucketAppend m k v) x = true ↔
      (manifestHas m x = true ∨ x = v) := by
  rw [manifestHas_iff, manifestHas_iff]
  unfold bucketAppend
  by_cases h : m.any (fun kv => kv.1 = k) = true
  · rw [if_pos h]
    constructor
    · rintro ⟨kv', hkv', hx⟩
      rcases List.mem_map.mp hkv' with ⟨kv, hkv, heq⟩
      by_cases hk : kv.1 = k
      · rw [if_pos hk] at heq
        rw [← heq] at hx
        rcases List.mem_append.mp hx with hx | hx
        · exact Or.inl ⟨kv, hkv, hx⟩
        · exact Or.inr (List.mem_singleton.mp hx)
      · rw [if_neg hk] at heq
        exact Or.inl ⟨kv, hkv, heq ▸ hx⟩
    · rintro (⟨kv, hkv, hx⟩ | rfl)
      · by_cases hk : kv.1 = k
        · refine ⟨(kv.1, kv.2 ++ [v]), List.mem_map.mpr ⟨kv, hkv, by rw [if_pos hk]⟩, ?_⟩
          exact List.mem_append_left _ hx
        · exact ⟨kv, List.mem_map.mpr ⟨kv, hkv, by rw [if_neg hk]⟩, hx⟩
      · rcases List.any_eq_true.mp h with ⟨kv0, hm0, he0⟩
        have he0' : kv0.1 = k := by simpa using he0
        refine ⟨(kv0.1, kv0.2 ++ [x]), List.mem_map.mpr ⟨kv0, hm0, ?_⟩, ?_⟩
        · rw [if_pos he0']
        · exact List.mem_append_right _ (List.mem_singleton.mpr rfl)
  · rw [if_neg h]
    constructor
    · rintro ⟨kv', hkv', hx⟩
      rcases List.mem_append.mp hkv' with hkv' | hkv'
      · exact Or.inl ⟨kv', hkv', hx⟩
      · rw [List.mem_singleton.mp hkv'] at hx
        exact Or.inr (List.mem_singleton.mp hx)
    · rintro (⟨kv, hkv, hx⟩ | rfl)
      · exact ⟨kv, List.mem_append_left _ hkv, hx⟩
      · exact ⟨(k, [x]), List.mem_append_right _ (List.mem_singleton.mpr rfl),
          List.mem_singleton.mpr rfl⟩

theorem manifestHas_cacheStep (m : List (String × List String)) (b x : String) :
    manifestHas (cacheStep m b) x = true ↔
      (manifestHas m x = true ∨
        (x = b ∧ ¬ lastComponent b = "sitemap.json")) := by
  unfold cacheStep
  by_cases hb : lastComponent b = "sitemap.json"
  · rw [if_pos hb]
    simp [hb]
  · rw [if_neg hb, manifestHas_bucketAppend]
    constructor
    · rintro (hm | rfl)
      · exact Or.inl hm
      · exact Or.inr ⟨rfl, hb⟩
    · rintro (hm | ⟨rfl, _⟩)
      · exact Or.inl hm
      · exact Or.inr rfl

theorem manifestHas_foldl (x : String) :
    ∀ (blobs : List String) (m0 : List (String × List String)),
    manifestHas (blobs.foldl cacheStep m0) x = true ↔
      (manifestHas m0 x = true ∨
        (x ∈ blobs ∧ ¬ lastComponent x = "sitemap.json"))
  | [], m0 => by simp
  | b :: bs, m0 => by
    rw [List.foldl_cons, manifestHas_foldl x bs (cacheStep m0 b),
      manifestHas_cacheStep]
    constructor
    · rintro ((hm | ⟨rfl, hb⟩) | ⟨hxs, hx⟩)
      · exact Or.inl hm
      · exact Or.inr ⟨List.mem_cons_self _ _, hb⟩
      · exact Or.inr ⟨List.mem_cons_of_mem _ hxs, hx⟩
    · rintro (hm | ⟨hxm, hx⟩)
      · exact Or.inl (Or.inl hm)
      · rcases List.mem_cons.mp hxm with rfl | hxs
        · exact Or.inl (Or.inr ⟨rfl, hx⟩)
        · exact Or.inr ⟨hxs, hx⟩

theorem manifestHas_map_sort (m : List (String × List String)) (x : String) :
    manifestHas (m.map (fun kv => (kv.1, sortStrings kv.2))) x = true ↔
      manifestHas m x = true := by
  rw [manifestHas_iff, manifestHas_iff]
  constructor
  · rintro ⟨kv', hkv', hx⟩
    rcases List.mem_map.mp hkv' with ⟨kv, hkv, heq⟩
    rw [← heq] at hx
    exact ⟨kv, hkv, mem_sortStrings.mp hx⟩
  · rintro ⟨kv, hkv, hx⟩
    exact ⟨(kv.1, sortStrings kv.2), List.mem_map.mpr ⟨kv, hkv, rfl⟩,
      mem_sortStrings.mpr hx⟩

theorem manifestHas_cache_build_map (blobs : List String) (x : String) :
    manifestHas (cache_build_map blobs) x = true ↔
      (x ∈ blobs ∧ ¬ lastComponent x = "sitemap.json") := by
  unfold cache_build_map
  rw [manifestHas_map_sort, manifestHas_foldl]
  simp [manifestHas]

/-! ### Characterization of the split-derived filename and cache key -/

theorem pySplitChar_ne_nil (sep : Char) : ∀ l : List Char, pySplitChar sep l ≠ []
  | [] => by simp [pySplitChar]
  | c :: cs => by
    unfold pySplitChar
    cases h : pySplitChar sep cs with
    | nil => simp
    | cons r rs => by_cases hc : c = sep <;> simp [hc]

theorem headD_pySplitChar (sep : Char) :
    ∀ l : List Char, (pySplitChar sep l).headD [] =
      l.takeWhile (fun c => decide (¬ c = sep))
  | [] => rfl
  | c :: cs => by
    have ih := headD_pySplitChar sep cs
    unfold pySplitChar
    cases h : pySplitChar sep cs with
    | nil => exact absurd h (pySplitChar_ne_nil sep cs)
    | cons r rs =>
      rw [h] at ih
      by_cases hc : c = sep
      · subst hc
        simp [List.takeWhile_cons]
      · simp [hc, List.takeWhile_cons]
        simpa using ih

theorem pySplitChar_cons_sep (sep : Char) (ys : List Char) :
    pySplitChar sep (sep :: ys) = [] :: pySplitChar sep ys := by
  show (match pySplitChar sep ys with
    | [] => [[]]
    | r :: rs => if sep = sep then [] :: r :: rs else (sep :: r) :: rs) =
      [] :: pySplitChar sep ys
  cases h : pySplitChar sep ys with
  | nil => exact absurd h (pySplitChar_ne_nil sep ys)
  | cons r rs => simp

theorem two_le_length_pySplitChar_append (sep : Char) :
    ∀ (xs ys : List Char), 2 ≤ (pySplitChar sep (xs ++ sep :: ys)).length
  | [], ys => by
    rw [List.nil_append, pySplitChar_cons_sep]
    have := pySplitChar_ne_nil sep ys
    cases h : pySplitChar sep ys with
    | nil => exact absurd h this
    | cons r rs => simp [h]
  | x :: xs, ys => by
    have ih := two_le_length_pySplitChar_append sep xs ys
    show 2 ≤ (pySplitChar sep (x :: (xs ++ sep :: ys))).length
    unfold pySplitChar
    cases h : pySplitChar sep (xs ++ sep :: ys) with
    | nil => exact absurd h (pySplitChar_ne_nil sep _)
    | cons r rs =>
      rw [h] at ih
      by_cases hx : x = sep
      · simp only [hx, if_true, List.length_cons]
        exact Nat.le_succ_of_le ih
      · simpa [hx] using ih

theorem getLastD_cons_of_ne_nil {l : List (List Char)} (h : l ≠ [])
    (a b : List Char) : (a :: l).getLastD [] = (b :: l).getLastD [] := by
  cases l with
  | nil => exact absurd rfl h
  | cons c cs => rfl

theorem getLastD_pySplitChar_append (sep : Char) :
    ∀ (xs ys : List Char),
    (pySplitChar sep (xs ++ sep :: ys)).getLastD [] =
      (pySplitChar sep ys).getLastD []
  | [], ys => by
    rw [List.nil_append, pySplitChar_cons_sep]
    cases h : pySplitChar sep ys with
    | nil => exact absurd h (pySplitChar_ne_nil sep ys)
    | cons r rs => rfl
  | x :: xs, ys => by
    have ih := getLastD_pySplitChar_append sep xs ys
    have hlen := two_le_length_pySplitChar_append sep xs ys
    cases h : pySplitChar sep (xs ++ sep :: ys) with
    | nil => exact absurd h (pySplitChar_ne_nil sep _)
    | cons r rs =>
      rw [h] at ih hlen
      have hrs : rs ≠ [] := by
        intro hrs
        rw [hrs] at hlen
        simp at hlen
      have hstep : pySplitChar sep ((x :: xs) ++ sep :: ys) =
          (if x = sep then [] :: r :: rs else (x :: r) :: rs) := by
        show (match pySplitChar sep (xs ++ sep :: ys) with
          | [] => [[]]
          | r :: rs => if x = sep then [] :: r :: rs else (x :: r) :: rs) = _
        rw [h]
      rw [hstep, ← ih]
      by_cases hx : x = sep
      · rw [if_pos hx]
        rfl
      · rw [if_neg hx]
        exact getLastD_cons_of_ne_nil hrs _ _

theorem pySplitChar_eq_single (sep : Char) :
    ∀ l : List Char, (∀ c ∈ l, ¬ c = sep) → pySplitChar sep l = [l]
  | [], _ => rfl
  | c :: cs, h => by
    unfold pySplitChar
    rw [pySplitChar_eq_single sep cs (fun d hd => h d (List.mem_cons_of_mem _ hd))]
    simp [h c (List.mem_cons_self _ _)]

/-- The filename component is what follows the last slash: prepending any
directory leaves it unchanged. -/
theorem lastComponent_append (a b : String) :
    lastComponent (a ++ "/" ++ b) = lastComponent b := by
  unfold lastComponent
  have hdata : (a ++ "/" ++ b).data = a.data ++ '/' :: b.data := by
    rw [String.data_append, String.data_append]
    simp
  rw [hdata, getLastD_pySplitChar_append]

/-- A key containing no slash is its own filename component. -/
theorem lastComponent_no_slash (s : String) (h : ∀ c ∈ s.data, ¬ c = '/') :
    lastComponent s = s := by
  unfold lastComponent
  rw [pySplitChar_eq_single '/' s.data h]
  exact strMk_data s

/-- `filename.split(".")[0]` is the longest dot-free leading run of the
filename: everything up to but not including the first dot, and the whole
filename when it has no dot. -/
theorem beforeFirstDot_takeWhile (s : String) :
    (beforeFirstDot s).data = s.data.takeWhile (fun c => decide (¬ c = '.')) := by
  unfold beforeFirstDot
  rw [headD_pySplitChar]

/-- The embedded comparison used by `sorted()` agrees with lexicographic
code-point string order: `pyStrLe a b` holds exactly when `b` is not
`List.lt`-below `a`. -/
theorem lexLe_iff_not_lt : ∀ x y : List Char, lexLe x y = true ↔ ¬ List.lt y x
  | [], y => by
    constructor
    · intro _ h
      nomatch h
    · intro _
      rfl
  | a :: as, [] => by
    simp only [lexLe]
    constructor
    · intro h
      exact absurd h (by simp)
    · intro h
      exact absurd (List.lt.nil a as) h
  | a :: as, b :: bs => by
    by_cases hab : a < b
    · simp only [lexLe, hab, if_true, true_iff]
      intro h
      cases h with
      | head _ _ h' => exact absurd h' (lt_asymm hab)
      | tail h1 h2 h3 => exact h2 hab
    · by_cases hba : b < a
      · rw [show lexLe (a :: as) (b :: bs) = false by simp [lexLe, hab, hba]]
        constructor
        · intro h
          exact absurd h (by simp)
        · intro h
          exact absurd (List.lt.head bs as hba) h
      · simp only [lexLe, hab, hba, if_false]
        rw [lexLe_iff_not_lt as bs]
        constructor
        · intro h hlt
          cases hlt with
          | head _ _ h' => exact hba h'
          | tail h1 h2 h3 => exact h h3
        · intro h hlt
          exact h (List.lt.tail hba hab hlt)

theorem pyStrLe_iff_not_lt (a b : String) :
    pyStrLe a b = true ↔ ¬ List.lt b.data a.data :=
  lexLe_iff_not_lt a.data b.data

/-! ### Claim C6 -/

/-- C6: `cache_build_map` derives each listed object's cache key as the
filename component (the part of the key after the last slash — prepending
directories does not change it, and a slash-free key is its own filename)
truncated at the first dot (`takeWhile (· ≠ '.')`, so a dot-free filename
is its own cache key), and appends the object's full key to that cache
key's bucket; in particular a blob named `covid19.2021-05-01.csv` gets
cache key `covid19` and a blob named `noextension` gets `noextension`. -/
theorem C6_cache_key_derivation :
    (∀ s : String, (beforeFirstDot s).data =
      s.data.takeWhile (fun c => decide (¬ c = '.')))
    ∧ (∀ a b : String, lastComponent (a ++ "/" ++ b) = lastComponent b)
    ∧ (∀ (blobs : List String) (x : String), x ∈ blobs →
        ¬ lastComponent x = "sitemap.json" →
        x ∈ getBucket (cache_build_map blobs) (beforeFirstDot (lastComponent x)))
    ∧ beforeFirstDot (lastComponent "covid19.2021-05-01.csv") = "covid19"
    ∧ beforeFirstDot (lastComponent "noextension") = "noextension" :=
  ⟨beforeFirstDot_takeWhile, lastComponent_append,
   fun _ _ hx hs => mem_getBucket_cache_build_map hx hs,
   by decide, by decide⟩

/-- Witness for C6: a concrete blob lands in the bucket of its derived
cache key. -/
theorem C6_cache_key_derivation_witness :
    "cache/covid19.2021-05-01.csv" ∈
      getBucket (cache_build_map ["cache/covid19.2021-05-01.csv", "cache/sitemap.json"])
        (beforeFirstDot (lastComponent "cache/covid19.2021-05-01.csv")) :=
  C6_cache_key_derivation.2.2.1
    ["cache/covid19.2021-05-01.csv", "cache/sitemap.json"]
    "cache/covid19.2021-05-01.csv" (by decide) (by decide)

/-! ### Claim C7 -/

/-- C7: every bucket of the mapping returned by `cache_build_map` is
sorted ascending in code-point lexicographic string order (the `sorted()`
comparison, embedded by `pyStrLe`), for every listing. -/
theorem C7_buckets_sorted (blobs : List String) (k : String) (l : List String)
    (h : (k, l) ∈ cache_build_map blobs) :
    l.Sorted (fun a b => pyStrLe a b = true) := by
  unfold cache_build_map at h
  rcases List.mem_map.mp h with ⟨kv, _, heq⟩
  have hl : sortStrings kv.2 = l := congrArg Prod.snd heq
  rw [← hl]
  exact sortStrings_sorted kv.2

/-- Witness for C7: keys sharing cache key `a` come back string-sorted
(`"...1.csv" < "...10.csv" < "...2.csv"`, not numeric order). -/
theorem C7_buckets_sorted_witness :
    (["cache/a.1.csv", "cache/a.10.csv", "cache/a.2.csv"] : List String).Sorted
      (fun a b => pyStrLe a b = true) :=
  C7_buckets_sorted ["cache/a.2.csv", "cache/a.10.csv", "cache/a.1.csv"] "a"
    ["cache/a.1.csv", "cache/a.10.csv", "cache/a.2.csv"] (by decide)

/-! ### Claim C8 -/

/-- C8 counterexample: the exclusion is by filename `sitemap.json`, not by
the key `cache/sitemap`: a blob whose full key is literally
`cache/sitemap` is *not* excluded (it contributes an entry under cache key
`sitemap`), while a blob `cache/x/sitemap.json`, whose key differs from
`cache/sitemap`, *is* excluded. -/
theorem C8_counterexample :
    manifestHas (cache_build_map ["cache/sitemap"]) "cache/sitemap" = true
    ∧ cache_build_map ["cache/x/sitemap.json"] = [] := by
  decide

/-- C8 (amended): `cache_build_map` considers exactly the objects listed
under the `cache` prefix and excludes exactly those whose filename
component is `sitemap.json` (in particular the manifest object
`cache/sitemap.json` itself); every other listed object contributes an
entry to some cache key's bucket. -/
theorem C8_exclusion (store : Store) (x : String) :
    manifestHas (cache_build_map (storeKeys (listBlobs store "cache"))) x = true ↔
      (x ∈ storeKeys store ∧ strPrefix "cache" x = true ∧
        ¬ lastComponent x = "sitemap.json") := by
  rw [manifestHas_cache_build_map, mem_storeKeys_listBlobs]
  tauto

/-! ### Claim C9 -/

/-- C9 counterexample: with two configured sources where the first one's
fetch fails, the surviving source is written locally but — its output name
`data` containing no dot — is *not* uploaded to the cache prefix, because
`upload_folder` enumerates with `glob("**/*.*")`.  So "the remaining N-1
outputs are ... uploaded to the cache prefix" fails as stated. -/
theorem C9_counterexample :
    ("2020-01-01-00/data", [7]) ∈ (cache_pull (fun _ _ => false)
        (fun u => if u = "u2" then some [7] else none)
        [("u1", "a.x"), ("u2", "data")] "2020-01-01-00" (fun _ => []) []).2.1
    ∧ "cache/2020-01-01-00/data" ∉ storeKeys (cache_pull (fun _ _ => false)
        (fun u => if u = "u2" then some [7] else none)
        [("u1", "a.x"), ("u2", "data")] "2020-01-01-00" (fun _ => []) []).1 := by
  decide

/-- C9 (amended): when no blob operation fails and the configured output
names are distinct, `cache_pull` (1) always acknowledges success ("OK" —
fetch failures are caught by the bare `except` and never surface), (2)
writes locally exactly the outputs whose fetch succeeded — each
successfully fetched source is present and each failed source is absent —
(3) uploads every successfully fetched output whose filename contains a
dot to `cache/<timestamp>/<output>`, and (4) rebuilds the manifest to
reflect exactly the cache-prefixed keys of the post-upload store (the
surviving new outputs plus any prior cache contents) except blobs whose
filename is `sitemap.json`. -/
theorem C9_cache_pull_resilience (fail : String → Nat → Bool)
    (fetch : String → Option Data) (config : List (String × String))
    (ts : String) (dumps : List (String × List String) → Data) (store : Store)
    (hnf : ∀ k i, fail k i = false)
    (houts : (config.map (fun s => s.2)).Nodup) :
    (cache_pull fail fetch config ts dumps store).2.2.2 = "OK"
    ∧ (∀ u o d, (u, o) ∈ config → fetch u = some d →
        (ts ++ "/" ++ o, d) ∈ (cache_pull fail fetch config ts dumps store).2.1)
    ∧ (∀ u o, (u, o) ∈ config → fetch u = none →
        (ts ++ "/" ++ o) ∉
          ((cache_pull fail fetch config ts dumps store).2.1).map (fun f => f.1))
    ∧ (∀ u o d, (u, o) ∈ config → fetch u = some d →
        globMatches (ts ++ "/" ++ o) = true →
        uploadKey "cache" (ts ++ "/" ++ o) ∈
          storeKeys (cache_pull fail fetch config ts dumps store).1)
    ∧ (∀ x, manifestHas ((cache_pull fail fetch config ts dumps store).2.2.1) x = true ↔
        (x ∈ storeKeys (upload_folder fail store "cache"
            ((cache_pull fail fetch config ts dumps store).2.1))
          ∧ strPrefix "cache" x = true ∧ ¬ lastComponent x = "sitemap.json")) := by
  simp only [cache_pull]
  refine ⟨by trivial, ?_, ?_, ?_, ?_⟩
  · intro u o d hc hf
    exact List.mem_filterMap.mpr ⟨(u, o), hc, by rw [hf]; rfl⟩
  · intro u o hc hf hmem
    rcases List.mem_map.mp hmem with ⟨f, hfm, hfe⟩
    rcases List.mem_filterMap.mp hfm with ⟨s, hs, hsome⟩
    cases hfu : fetch s.1 with
    | none =>
      rw [hfu] at hsome
      exact Option.noConfusion hsome
    | some d' =>
      rw [hfu] at hsome
      have hf' : f = (ts ++ "/" ++ s.2, d') := (Option.some_inj.mp hsome).symm
      have ho : s.2 = o := by
        have : ts ++ "/" ++ s.2 = ts ++ "/" ++ o := by
          rw [← hfe, hf']
        exact strAppend_left_cancel this
      have hse : s = (u, o) := by
        refine List.inj_on_of_nodup_map houts hs hc ?_
        simpa using ho
      rw [hse] at hfu
      rw [hf] at hfu
      exact Option.noConfusion hfu
  · intro u o d hc hf hg
    have hfmem : (ts ++ "/" ++ o, d) ∈ config.filterMap
        (fun s => (fetch s.1).map (fun d => (ts ++ "/" ++ s.2, d))) :=
      List.mem_filterMap.mpr ⟨(u, o), hc, by rw [hf]; rfl⟩
    have hok : transferOk (fail (uploadKey "cache" (ts ++ "/" ++ o)))
        BLOB_OP_MAX_RETRIES = true :=
      transferOk_of_firstOk (hnf _ 0)
    have h1 := uploadKey_mem_upload_folder fail store "cache" _
      (ts ++ "/" ++ o, d) hfmem hg hok
    exact mem_storeKeys_putBlob.mpr (Or.inl h1)
  · intro x
    rw [manifestHas_cache_build_map, mem_storeKeys_listBlobs]
    tauto

/-- Witness for C9 (amended): the first source's fetch fails, the second
(dotted) output is uploaded and the call still answers "OK". -/
theorem C9_cache_pull_resilience_witness :
    (cache_pull (fun _ _ => false)
        (fun u => if u = "u1" then none else some [7])
        [("u1", "a.x"), ("u2", "b.csv")] "2020" (fun _ => []) []).2.2.2 = "OK"
    ∧ uploadKey "cache" ("2020" ++ "/" ++ "b.csv") ∈
        storeKeys (cache_pull (fun _ _ => false)
          (fun u => if u = "u1" then none else some [7])
          [("u1", "a.x"), ("u2", "b.csv")] "2020" (fun _ => []) []).1 := by
  have h := C9_cache_pull_resilience (fun _ _ => false)
    (fun u => if u = "u1" then none else some [7])
    [("u1", "a.x"), ("u2", "b.csv")] "2020" (fun _ => []) []
    (fun _ _ => rfl) (by decide)
  exact ⟨h.1, h.2.2.2.1 "u2" "b.csv" [7] (by decide) (by decide) (by decide)⟩

end Appengine
